import Mathlib

/-!
Verification of `simple_calculator.py`, an interactive CLI calculator.

The source program works over Python `float`s.  This development embeds the
numeric values as exact rationals (`ℚ`): every operand literal the grammar
accepts denotes a rational, and `+ - * / // %` on such values are exact.
The only operation whose Python result can leave the rationals is `**` with a
non-integer exponent; the embedding records that case symbolically (see
`ValPy.approx`).  Strings are embedded as `List Char`; the ASCII fragments of
Python's `\s`, `\d`, `str.lower` and `str.strip` are used (the source is only
ever exercised on ASCII input; Unicode digits/spaces are outside the model).
-/

namespace SimpleCalc

/-- ASCII fragment of Python's regex class `\s` (space, tab, newline,
carriage return, vertical tab, form feed). -/
def pySpace (c : Char) : Bool :=
  c == ' ' || c == '\t' || c == '\n' || c == '\r' || c == '\x0b' || c == '\x0c'

/-- `\s*`: drop leading whitespace. -/
def dropWs (s : List Char) : List Char := s.dropWhile pySpace

/-- Matcher for the regex fragment `\d+(?:\.\d+)?` (one operand without its
optional sign), returning the matched characters and the rest of the input.
The fractional group is entered only when a digit follows the dot, exactly as
the regex's optional group `(?:\.\d+)?` behaves (backtracking into the greedy
`\d+`/fraction can never turn a failure into a match, since the characters
given back would have to be matched by `\s*`, an operator, or `$`, and a digit
or a lone dot matches none of those). -/
def parseUnsigned (s : List Char) : Option (List Char × List Char) :=
  if (s.takeWhile Char.isDigit).isEmpty then none
  else
    match s.dropWhile Char.isDigit with
    | [] => some (s.takeWhile Char.isDigit, [])
    | c :: r2 =>
      if c = '.' then
        if (r2.takeWhile Char.isDigit).isEmpty then
          some (s.takeWhile Char.isDigit, c :: r2)
        else
          some (s.takeWhile Char.isDigit ++ c :: r2.takeWhile Char.isDigit,
                r2.dropWhile Char.isDigit)
      else some (s.takeWhile Char.isDigit, c :: r2)

/-- Matcher for the operand group `(-?\d+(?:\.\d+)?)` of `EXPR_RE`. -/
def parseNumber (s : List Char) : Option (List Char × List Char) :=
  match s with
  | [] => none
  | c :: r =>
    if c = '-' then (parseUnsigned r).map (fun p => (c :: p.1, p.2))
    else parseUnsigned s

/-- Matcher for the operator group `(//|\*\*|[+\-*/%])` of `EXPR_RE`:
the two-character alternatives are tried first, so `//` and `**` are matched
longest-first, exactly as in the regex's alternation order. -/
def parseOpTok (s : List Char) : Option (List Char × List Char) :=
  match s with
  | [] => none
  | c1 :: r1 =>
    if c1 = '/' then
      match r1 with
      | c2 :: r2 => if c2 = '/' then some ([c1, c2], r2) else some ([c1], r1)
      | [] => some ([c1], r1)
    else if c1 = '*' then
      match r1 with
      | c2 :: r2 => if c2 = '*' then some ([c1, c2], r2) else some ([c1], r1)
      | [] => some ([c1], r1)
    else if c1 = '+' ∨ c1 = '-' ∨ c1 = '%' then some ([c1], r1)
    else none

/-- Embedding of `EXPR_RE.match` for
`^\s*(-?\d+(?:\.\d+)?)\s*(//|\*\*|[+\-*/%])\s*(-?\d+(?:\.\d+)?)\s*$`:
on success it yields the three captured groups.  (Python's `$` may also match
just before a final newline, but the trailing `\s*` already consumes any
trailing whitespace, newline included, so anchoring at the very end is
equivalent.) -/
def parseExpr (s : List Char) : Option (List Char × List Char × List Char) :=
  match parseNumber (dropWs s) with
  | none => none
  | some (aStr, r1) =>
    match parseOpTok (dropWs r1) with
    | none => none
    | some (opStr, r2) =>
      match parseNumber (dropWs r2) with
      | none => none
      | some (bStr, r3) =>
        if (dropWs r3).isEmpty then some (aStr, opStr, bStr) else none

/-- Value of a digit string under the usual positional reading
(what `float` computes for the integer and fraction parts). -/
def digitsToNat (ds : List Char) : ℕ :=
  ds.foldl (fun a c => 10 * a + (c.toNat - '0'.toNat)) 0

/-- Embedding of Python `float` on an unsigned matched operand substring
(digits, optionally a dot and more digits).  Total; inputs outside the operand
grammar never reach it in the program. -/
def strToRatU (cs : List Char) : ℚ :=
  match cs.dropWhile Char.isDigit with
  | c :: r =>
    if c = '.' then
      (digitsToNat (cs.takeWhile Char.isDigit) : ℚ) +
        (digitsToNat (r.takeWhile Char.isDigit) : ℚ) / 10 ^ (r.takeWhile Char.isDigit).length
    else (digitsToNat (cs.takeWhile Char.isDigit) : ℚ)
  | [] => (digitsToNat (cs.takeWhile Char.isDigit) : ℚ)

/-- Embedding of Python `float` on a matched operand substring (`float(a_str)`
at line 54 of the source): optional leading minus, then the unsigned part. -/
def strToRat (cs : List Char) : ℚ :=
  match cs with
  | c :: r => if c = '-' then -(strToRatU r) else strToRatU cs
  | [] => 0

/-- The failure modes of `calculate_expression` and of the arithmetic
lambdas it dispatches to.  The first three are the `ValueError`s raised
explicitly by `calculate_expression`; the remaining four are the
`ZeroDivisionError`s Python itself would raise inside the `OPS` lambdas. -/
inductive CalcError where
  | malformed : CalcError
  | unsupportedOp : List Char → CalcError
  | divisionByZero : CalcError
  | floatDivByZero : CalcError
  | floatFloorDivByZero : CalcError
  | floatModByZero : CalcError
  | zeroToNegativePower : CalcError
deriving DecidableEq

/-- Message text of each failure, as the REPL would display it. -/
def errMessage : CalcError → List Char
  | .malformed => "Invalid format. Use: <number> <operator> <number> (try 'help')".data
  | .unsupportedOp op => "Unsupported operator: ".data ++ op
  | .divisionByZero => "Division by zero is not allowed".data
  | .floatDivByZero => "float division by zero".data
  | .floatFloorDivByZero => "float floor division by zero".data
  | .floatModByZero => "float modulo".data
  | .zeroToNegativePower => "0.0 cannot be raised to a negative power".data

/-- A numeric result.  `rat x` is an exact rational value; `approx a b` is the
value of `a ** b` for a non-integer exponent `b`, which Python computes as a
floating-point (or, for a negative base, complex) approximation — a value
outside the exact-rational model, recorded symbolically by its operands. -/
inductive ValPy where
  | rat : ℚ → ValPy
  | approx : ℚ → ℚ → ValPy
deriving DecidableEq

/-- `lambda a, b: a + b`. -/
def addOp (a b : ℚ) : Except CalcError ValPy := .ok (.rat (a + b))

/-- `lambda a, b: a - b`. -/
def subOp (a b : ℚ) : Except CalcError ValPy := .ok (.rat (a - b))

/-- `lambda a, b: a * b`. -/
def mulOp (a b : ℚ) : Except CalcError ValPy := .ok (.rat (a * b))

/-- `lambda a, b: a / b` (raises `ZeroDivisionError` when `b == 0`). -/
def divOp (a b : ℚ) : Except CalcError ValPy :=
  if b = 0 then .error .floatDivByZero else .ok (.rat (a / b))

/-- `lambda a, b: a // b`: floor division (raises when `b == 0`). -/
def floordivOp (a b : ℚ) : Except CalcError ValPy :=
  if b = 0 then .error .floatFloorDivByZero else .ok (.rat ((⌊a / b⌋ : ℤ) : ℚ))

/-- `lambda a, b: a % b`: floor-division-consistent modulo,
`a - b * ⌊a / b⌋` (raises when `b == 0`). -/
def modOp (a b : ℚ) : Except CalcError ValPy :=
  if b = 0 then .error .floatModByZero else .ok (.rat (a - b * (⌊a / b⌋ : ℤ)))

/-- `lambda a, b: a ** b`.  For an integer exponent the result is the exact
power `a ^ b.num`; `0.0` to a negative power raises `ZeroDivisionError` in
Python; a non-integer exponent yields a value outside the rational model. -/
def powOp (a b : ℚ) : Except CalcError ValPy :=
  if a = 0 ∧ b < 0 then .error .zeroToNegativePower
  else if b.den = 1 then .ok (.rat (a ^ b.num)) else .ok (.approx a b)

/-- The `OPS` table: operator symbol to binary operation, in source order. -/
def OPS : List (List Char × (ℚ → ℚ → Except CalcError ValPy)) :=
  [(['+'], addOp), (['-'], subOp), (['*'], mulOp), (['/'], divOp),
   (['/', '/'], floordivOp), (['%'], modOp), (['*', '*'], powOp)]

/-- Embedding of `calculate_expression` (source lines 43–64): match the
regex, convert the captured operands with `float`, check `op not in OPS`,
check division by zero for `/ // %`, then apply the table entry. -/
def calculate_expression (expr : List Char) : Except CalcError ValPy :=
  match parseExpr expr with
  | none => .error .malformed
  | some (aStr, op, bStr) =>
    match List.lookup op OPS with
    | none => .error (.unsupportedOp op)
    | some f =>
      if (op = ['/'] ∨ op = ['/', '/'] ∨ op = ['%']) ∧ strToRat bStr = 0 then
        .error .divisionByZero
      else f (strToRat aStr) (strToRat bStr)

/-- Decimal digit characters of `n`, most significant first, with explicit
fuel so that the definition is structural (the fuel `n + 1` always suffices
since `n / 10` shrinks). -/
def natDecAux : ℕ → ℕ → List Char
  | 0, _ => []
  | fuel + 1, n =>
    if n < 10 then [Nat.digitChar n]
    else natDecAux fuel (n / 10) ++ [Nat.digitChar (n % 10)]

/-- Decimal representation of a natural number, as `str` renders it. -/
def natDec (n : ℕ) : List Char := natDecAux (n + 1) n

/-- Embedding of Python `str` on an `int`. -/
def intRender (n : ℤ) : List Char :=
  if n < 0 then '-' :: natDec n.natAbs else natDec n.toNat

/-- Embedding of Python `int(x)` on a number: truncation toward zero. -/
def pyTrunc (x : ℚ) : ℤ := if 0 ≤ x then ⌊x⌋ else ⌈x⌉

/-- Smallest exponent `k` in `[start, start + fuel)` with `y * 10 ^ k` an
integer, if any: the number of fractional digits of a finite decimal. -/
def scaleSearch (y : ℚ) : ℕ → ℕ → Option ℕ
  | _, 0 => none
  | k, fuel + 1 => if (y * 10 ^ k).den = 1 then some k else scaleSearch y (k + 1) fuel

/-- Embedding of Python `str` on a non-integer number: sign, integer part,
a dot, then the fractional digits (zero-padded to their place value).  For a
value with a finite decimal expansion of at most 17 digits this is exactly
Python's shortest-round-trip rendering; rationals needing more digits are cut
off at 17, mirroring the fact that a `float` carries at most 17 significant
decimal digits. -/
def floatRepr (x : ℚ) : List Char :=
  (if x < 0 then ['-'] else []) ++ natDec (⌊|x|⌋).toNat ++
    '.' :: (List.replicate ((scaleSearch |x| 1 17).getD 17 -
              (natDec (⌊(|x| - ((⌊|x|⌋ : ℤ) : ℚ)) * 10 ^ ((scaleSearch |x| 1 17).getD 17)⌋).toNat).length) '0' ++
            natDec (⌊(|x| - ((⌊|x|⌋ : ℤ) : ℚ)) * 10 ^ ((scaleSearch |x| 1 17).getD 17)⌋).toNat)

/-- Embedding of `format_number` (source lines 67–71): when the value equals
its integer truncation, render `str(int(x))`, otherwise `str(x)`. -/
def format_number (x : ℚ) : List Char :=
  if x = ((pyTrunc x : ℤ) : ℚ) then intRender (pyTrunc x) else floatRepr x

/-- Rendering of a result value for display.  A non-rational `**` result is
shown by a placeholder: its display goes through host floating point (or
fails on a complex value), which is outside this model, and no claim
concerns its text. -/
def fmtVal : ValPy → List Char
  | .rat x => format_number x
  | .approx _ _ => "<host floating-point power>".data

/-- The quit-command set `{"q", "quit", "exit"}`. -/
def quitCommands : List (List Char) :=
  [['q'], ['q', 'u', 'i', 't'], ['e', 'x', 'i', 't']]

/-- ASCII fragment of `str.lower` on one character. -/
def lowerChar (c : Char) : Char :=
  if 'A' ≤ c ∧ c ≤ 'Z' then Char.ofNat (c.toNat + 32) else c

/-- ASCII fragment of `str.lower`. -/
def asciiLower (s : List Char) : List Char := s.map lowerChar

/-- `str.strip`: drop whitespace at both ends. -/
def pyStrip (s : List Char) : List Char :=
  ((s.dropWhile pySpace).reverse.dropWhile pySpace).reverse

/-- The module docstring, printed by `print_help`. -/
def helpText : List Char :=
  "\nSimple Calculator (CLI)\n\nUsage:\n  - Enter expressions in the form: <number> <operator> <number>\n    Examples:\n      2 + 3\n      10 - 4.5\n      7 * 8\n      9 / 2\n      9 // 2    \n      10 % 3\n      2 ** 8\n\n  - Commands:\n      help  -> show this help\n      q     -> quit (also: quit, exit)\n\nNotes:\n  - Supports integers and decimals, including negatives\n  - Gracefully handles division by zero and invalid inputs\n".data

/-- One iteration of the `main` loop (source lines 80–102) on a line read
from the user: the printed lines and whether the loop continues.  Prompt text
is not modelled as output. -/
def replStep (s : List Char) : List (List Char) × Bool :=
  if (pyStrip s).isEmpty then ([], true)
  else if asciiLower (pyStrip s) ∈ quitCommands then (["Goodbye.".data], false)
  else if asciiLower (pyStrip s) = "help".data then ([helpText], true)
  else
    match calculate_expression (pyStrip s) with
    | .ok v => (["= ".data ++ fmtVal v], true)
    | .error e => (["Error: ".data ++ errMessage e], true)

/-- The `main` loop on a whole session: the list of lines read from the
user, in order.  Exhaustion of the list is `input()` raising `EOFError` (or
`KeyboardInterrupt`), handled at source lines 83–85 by printing and breaking. -/
def runREPL : List (List Char) → List (List Char)
  | [] => [('\n' :: "Exiting.".data)]
  | s :: rest =>
    match replStep s with
    | (out, true) => out ++ runREPL rest
    | (out, false) => out

/-- `main`: the banner line, then the loop. -/
def mainOutput (inputs : List (List Char)) : List (List Char) :=
  "Simple Calculator - type 'help' for instructions, 'q' to quit.".data :: runREPL inputs

/-! ### The declarative grammar

A second reading of `EXPR_RE`, written as the spec describes the grammar:
an operand literal is an optional minus, digits, and an optional fractional
part; an expression is two operands around one of the seven operator tokens,
with arbitrary whitespace around the three tokens. -/

/-- An operand literal `-?\d+(\.\d+)?`, by structure: sign flag, integer-part
digits, fraction digits (`[]` meaning the dot and fraction are absent). -/
structure NumLit where
  sign : Bool
  ip : List Char
  fp : List Char

/-- Well-formedness: at least one integer digit and only digit characters. -/
def NumLit.wf (L : NumLit) : Bool :=
  !L.ip.isEmpty && L.ip.all Char.isDigit && L.fp.all Char.isDigit

/-- The literal's text. -/
def NumLit.render (L : NumLit) : List Char :=
  (if L.sign then ['-'] else []) ++ L.ip ++ (if L.fp.isEmpty then [] else '.' :: L.fp)

/-- The number the literal denotes: positional value of the digits, the
fraction scaled by its place value, negated under the sign. -/
def NumLit.val (L : NumLit) : ℚ :=
  (if L.sign then -1 else 1) *
    ((digitsToNat L.ip : ℚ) + (digitsToNat L.fp : ℚ) / 10 ^ L.fp.length)

/-- The seven operators. -/
inductive Op where
  | add | sub | mul | div | floordiv | mod | pow
deriving DecidableEq

/-- Each operator's token text. -/
def Op.tok : Op → List Char
  | .add => ['+']
  | .sub => ['-']
  | .mul => ['*']
  | .div => ['/']
  | .floordiv => ['/', '/']
  | .mod => ['%']
  | .pow => ['*', '*']

/-- The function the `OPS` table maps each operator token to. -/
def opFun : Op → ℚ → ℚ → Except CalcError ValPy
  | .add => addOp
  | .sub => subOp
  | .mul => mulOp
  | .div => divOp
  | .floordiv => floordivOp
  | .mod => modOp
  | .pow => powOp

/-- An input matches the grammar of `EXPR_RE` in its entirety: whitespace,
an operand, whitespace, an operator token, whitespace, an operand,
whitespace. -/
def MatchesGrammar (s : List Char) : Prop :=
  ∃ (ws1 ws2 ws3 ws4 : List Char) (A B : NumLit) (o : Op),
    ws1.all pySpace = true ∧ ws2.all pySpace = true ∧
    ws3.all pySpace = true ∧ ws4.all pySpace = true ∧
    A.wf = true ∧ B.wf = true ∧
    s = ws1 ++ (A.render ++ (ws2 ++ (o.tok ++ (ws3 ++ (B.render ++ ws4)))))

/-- The mathematically correct result of one operator on two numbers:
exact field operations, `Int.floor` for `//`, the floor-consistent modulo,
and the exact integer power for `**` (a non-integer exponent has no exact
rational result; it is the recorded approximation). -/
def mathResult (o : Op) (a b : ℚ) : ValPy :=
  match o with
  | .add => .rat (a + b)
  | .sub => .rat (a - b)
  | .mul => .rat (a * b)
  | .div => .rat (a / b)
  | .floordiv => .rat ((⌊a / b⌋ : ℤ) : ℚ)
  | .mod => .rat (a - b * (⌊a / b⌋ : ℤ))
  | .pow => if b.den = 1 then .rat (a ^ b.num) else .approx a b

/-- Whether a result is a success. -/
def isOkB : Except CalcError ValPy → Bool
  | .ok _ => true
  | .error _ => false

/-- Whether a result is the explicit `DIVISION_BY_ZERO` failure. -/
def isDivZeroErr : Except CalcError ValPy → Bool
  | .error .divisionByZero => true
  | _ => false

/-- Whether a result is the `Unsupported operator` failure. -/
def isUnsupportedErr : Except CalcError ValPy → Bool
  | .error (.unsupportedOp _) => true
  | _ => false

/-- Whether a result avoids every `ZeroDivisionError` that the arithmetic
lambdas themselves would raise (as opposed to the explicit check). -/
def lambdaZeroErrFree : Except CalcError ValPy → Bool
  | .error .floatDivByZero => false
  | .error .floatFloorDivByZero => false
  | .error .floatModByZero => false
  | _ => true

/-- Two adjacent copies of `c` occur somewhere in the string. -/
def hasDouble (c : Char) : List Char → Bool
  | a :: b :: t => (a = c && b = c) || hasDouble c (b :: t)
  | _ => false

/-- Decidable equality of evaluation results. -/
instance : DecidableEq (Except CalcError ValPy)
  | .ok a, .ok b =>
    if h : a = b then .isTrue (by rw [h]) else .isFalse (fun he => h (Except.ok.inj he))
  | .error a, .error b =>
    if h : a = b then .isTrue (by rw [h]) else .isFalse (fun he => h (Except.error.inj he))
  | .ok _, .error _ => .isFalse Except.noConfusion
  | .error _, .ok _ => .isFalse Except.noConfusion

/-- Every operator string a successful match captures is a key of `OPS`. -/
def opLookupOk : Option (List Char × List Char × List Char) → Bool
  | none => true
  | some g => (List.lookup g.2.1 OPS).isSome

/-! ### List and character facts used by the parser proofs -/

theorem tw_append {p : Char → Bool} :
    ∀ (l₁ l₂ : List Char), l₁.all p = true →
      (l₁ ++ l₂).takeWhile p = l₁ ++ l₂.takeWhile p := by
  intro l₁ l₂ h
  induction l₁ with
  | nil => rfl
  | cons c t ih =>
    simp only [List.all_cons, Bool.and_eq_true] at h
    simp [List.takeWhile_cons, h.1, ih h.2]

theorem dw_append {p : Char → Bool} :
    ∀ (l₁ l₂ : List Char), l₁.all p = true →
      (l₁ ++ l₂).dropWhile p = l₂.dropWhile p := by
  intro l₁ l₂ h
  induction l₁ with
  | nil => rfl
  | cons c t ih =>
    simp only [List.all_cons, Bool.and_eq_true] at h
    simp [List.dropWhile_cons, h.1, ih h.2]

theorem tw_cons_neg {p : Char → Bool} {c : Char} (t : List Char) (h : p c = false) :
    (c :: t).takeWhile p = [] := by
  simp [List.takeWhile_cons, h]

theorem dw_cons_neg {p : Char → Bool} {c : Char} (t : List Char) (h : p c = false) :
    (c :: t).dropWhile p = c :: t := by
  simp [List.dropWhile_cons, h]

theorem tw_self {p : Char → Bool} (l : List Char) (h : l.all p = true) :
    l.takeWhile p = l := by
  have := tw_append l [] h
  simpa using this

theorem dw_self {p : Char → Bool} (l : List Char) (h : l.all p = true) :
    l.dropWhile p = [] := by
  have := dw_append l [] h
  simpa using this

theorem all_tw (p : Char → Bool) : ∀ l : List Char, (l.takeWhile p).all p = true := by
  intro l
  induction l with
  | nil => rfl
  | cons c t ih =>
    by_cases h : p c = true
    · simp [List.takeWhile_cons, h, ih]
    · simp only [Bool.not_eq_true] at h
      simp [List.takeWhile_cons, h]

theorem space_not_digit {c : Char} (h : pySpace c = true) : c.isDigit = false := by
  simp only [pySpace, Bool.or_eq_true, beq_iff_eq] at h
  rcases h with ((((rfl | rfl) | rfl) | rfl) | rfl) | rfl <;> rfl

theorem space_ne {c : Char} (h : pySpace c = true) :
    c ≠ '.' ∧ c ≠ '-' ∧ c ≠ '/' ∧ c ≠ '*' ∧ c ≠ '+' ∧ c ≠ '%' := by
  simp only [pySpace, Bool.or_eq_true, beq_iff_eq] at h
  rcases h with ((((rfl | rfl) | rfl) | rfl) | rfl) | rfl <;>
    exact ⟨by decide, by decide, by decide, by decide, by decide, by decide⟩

theorem digit_not_space {c : Char} (h : c.isDigit = true) : pySpace c = false := by
  by_cases hs : pySpace c = true
  · rw [space_not_digit hs] at h; cases h
  · simpa using hs

theorem digit_ne {c : Char} (h : c.isDigit = true) :
    c ≠ '.' ∧ c ≠ '-' ∧ c ≠ '/' ∧ c ≠ '*' ∧ c ≠ '+' ∧ c ≠ '%' := by
  refine ⟨?_, ?_, ?_, ?_, ?_, ?_⟩ <;> (rintro rfl; exact absurd h (by decide))

/-! ### Completeness of the parser on grammatical input -/

theorem wf_parts {L : NumLit} (h : L.wf = true) :
    L.ip.isEmpty = false ∧ L.ip.all Char.isDigit = true ∧ L.fp.all Char.isDigit = true := by
  simp only [NumLit.wf, Bool.and_eq_true, Bool.not_eq_true'] at h
  exact ⟨h.1.1, h.1.2, h.2⟩

theorem parseUnsigned_noFrac (ip tail : List Char) (h1 : ip.isEmpty = false)
    (h2 : ip.all Char.isDigit = true)
    (ht : ∀ c t, tail = c :: t → c.isDigit = false ∧ c ≠ '.') :
    parseUnsigned (ip ++ tail) = some (ip, tail) := by
  cases tail with
  | nil =>
    simp [parseUnsigned, tw_self ip h2, dw_self ip h2, h1]
  | cons c t =>
    have hc := ht c t rfl
    have htw : ((ip ++ (c :: t)).takeWhile Char.isDigit) = ip := by
      rw [tw_append ip _ h2, tw_cons_neg t hc.1, List.append_nil]
    have hdw : ((ip ++ (c :: t)).dropWhile Char.isDigit) = c :: t := by
      rw [dw_append ip _ h2, dw_cons_neg t hc.1]
    simp [parseUnsigned, htw, hdw, h1, hc.2]

theorem parseUnsigned_frac (ip fp tail : List Char) (h1 : ip.isEmpty = false)
    (h2 : ip.all Char.isDigit = true) (h3 : fp.isEmpty = false)
    (h4 : fp.all Char.isDigit = true)
    (ht : ∀ c t, tail = c :: t → c.isDigit = false) :
    parseUnsigned (ip ++ ('.' :: (fp ++ tail))) = some (ip ++ ('.' :: fp), tail) := by
  have hdot : Char.isDigit '.' = false := rfl
  have htw : ((ip ++ ('.' :: (fp ++ tail))).takeWhile Char.isDigit) = ip := by
    rw [tw_append ip _ h2, tw_cons_neg _ hdot, List.append_nil]
  have hdw : ((ip ++ ('.' :: (fp ++ tail))).dropWhile Char.isDigit) = '.' :: (fp ++ tail) := by
    rw [dw_append ip _ h2, dw_cons_neg _ hdot]
  have htw2 : ((fp ++ tail).takeWhile Char.isDigit) = fp := by
    rw [tw_append fp _ h4]
    cases tail with
    | nil => simp
    | cons c t => rw [tw_cons_neg t (ht c t rfl), List.append_nil]
  have hdw2 : ((fp ++ tail).dropWhile Char.isDigit) = tail := by
    rw [dw_append fp _ h4]
    cases tail with
    | nil => rfl
    | cons c t => exact dw_cons_neg t (ht c t rfl)
  simp [parseUnsigned, htw, hdw, htw2, hdw2, h1, h3]

theorem parseNumber_render (L : NumLit) (tail : List Char) (hwf : L.wf = true)
    (ht : ∀ c t, tail = c :: t → c.isDigit = false ∧ c ≠ '.') :
    parseNumber (L.render ++ tail) = some (L.render, tail) := by
  obtain ⟨h1, h2, h3⟩ := wf_parts hwf
  have hU : parseUnsigned ((L.ip ++ (if L.fp.isEmpty then [] else '.' :: L.fp)) ++ tail)
      = some (L.ip ++ (if L.fp.isEmpty then [] else '.' :: L.fp), tail) := by
    cases hfp : L.fp with
    | nil =>
      simp only [List.isEmpty_nil, if_pos, List.append_nil]
      exact parseUnsigned_noFrac L.ip tail h1 h2 ht
    | cons f ft =>
      rw [hfp] at h3
      simp only [List.isEmpty_cons, if_neg, Bool.false_eq_true, List.append_assoc,
        List.cons_append]
      exact parseUnsigned_frac L.ip (f :: ft) tail h1 h2 rfl h3
        (fun c t he => (ht c t he).1)
  cases hs : L.sign
  · have hrender : L.render = L.ip ++ (if L.fp.isEmpty then [] else '.' :: L.fp) := by
      simp [NumLit.render, hs]
    rw [hrender]
    cases hip : L.ip with
    | nil => rw [hip] at h1; cases h1
    | cons d dt =>
      have hd : d.isDigit = true := by
        rw [hip] at h2
        simp only [List.all_cons, Bool.and_eq_true] at h2
        exact h2.1
      have hdne : ¬(d = '-') := (digit_ne hd).2.1
      rw [hip] at hU
      simp only [List.cons_append] at hU ⊢
      simp only [parseNumber, if_neg hdne]
      exact hU
  · have hrender : L.render = '-' :: (L.ip ++ (if L.fp.isEmpty then [] else '.' :: L.fp)) := by
      simp [NumLit.render, hs]
    rw [hrender]
    simp only [List.cons_append, parseNumber, if_pos]
    rw [hU]
    rfl

theorem parseOpTok_complete (o : Op) (tail : List Char)
    (ht : ∀ c t, tail = c :: t → c ≠ '/' ∧ c ≠ '*') :
    parseOpTok (o.tok ++ tail) = some (o.tok, tail) := by
  cases o
  case add => simp [Op.tok, parseOpTok]
  case sub => simp [Op.tok, parseOpTok]
  case mul =>
    cases tail with
    | nil => simp [Op.tok, parseOpTok]
    | cons c t => simp [Op.tok, parseOpTok, (ht c t rfl).2]
  case div =>
    cases tail with
    | nil => simp [Op.tok, parseOpTok]
    | cons c t => simp [Op.tok, parseOpTok, (ht c t rfl).1]
  case floordiv => simp [Op.tok, parseOpTok]
  case mod => simp [Op.tok, parseOpTok]
  case pow => simp [Op.tok, parseOpTok]

theorem render_head (L : NumLit) (hwf : L.wf = true) (rest : List Char) :
    ∃ c t, L.render ++ rest = c :: t ∧ (c = '-' ∨ c.isDigit = true) := by
  obtain ⟨h1, h2, _⟩ := wf_parts hwf
  cases hs : L.sign
  · cases hip : L.ip with
    | nil => rw [hip] at h1; cases h1
    | cons d dt =>
      refine ⟨d, dt ++ (if L.fp.isEmpty then [] else '.' :: L.fp) ++ rest, ?_, Or.inr ?_⟩
      · simp [NumLit.render, hs, hip]
      · rw [hip] at h2
        simp only [List.all_cons, Bool.and_eq_true] at h2
        exact h2.1
  · exact ⟨'-', L.ip ++ (if L.fp.isEmpty then [] else '.' :: L.fp) ++ rest,
      by simp [NumLit.render, hs], Or.inl rfl⟩

theorem dropWs_append (ws rest : List Char) (h : ws.all pySpace = true) :
    dropWs (ws ++ rest) = dropWs rest :=
  dw_append ws rest h

theorem dropWs_render (L : NumLit) (hwf : L.wf = true) (rest : List Char) :
    dropWs (L.render ++ rest) = L.render ++ rest := by
  obtain ⟨c, t, he, hc⟩ := render_head L hwf rest
  rw [he]
  refine dw_cons_neg t ?_
  rcases hc with rfl | hd
  · rfl
  · exact digit_not_space hd

theorem dropWs_tok (o : Op) (rest : List Char) :
    dropWs (o.tok ++ rest) = o.tok ++ rest := by
  cases o <;> simp [Op.tok, dropWs, List.dropWhile_cons, pySpace]

theorem headNF_ws_tok (ws2 : List Char) (h : ws2.all pySpace = true) (o : Op)
    (rest : List Char) :
    ∀ c t, ws2 ++ (o.tok ++ rest) = c :: t → c.isDigit = false ∧ c ≠ '.' := by
  intro c t he
  cases ws2 with
  | cons w wt =>
    simp only [List.cons_append] at he
    obtain ⟨rfl, -⟩ := List.cons_eq_cons.mp he
    have hw : pySpace w = true := by
      simp only [List.all_cons, Bool.and_eq_true] at h
      exact h.1
    exact ⟨space_not_digit hw, (space_ne hw).1⟩
  | nil =>
    simp only [List.nil_append] at he
    cases o <;>
      (simp only [Op.tok, List.cons_append] at he
       obtain ⟨rfl, -⟩ := List.cons_eq_cons.mp he
       exact ⟨rfl, by decide⟩)

theorem headNF_spaces (ws : List Char) (h : ws.all pySpace = true) :
    ∀ c t, ws = c :: t → c.isDigit = false ∧ c ≠ '.' := by
  intro c t he
  subst he
  simp only [List.all_cons, Bool.and_eq_true] at h
  exact ⟨space_not_digit h.1, (space_ne h.1).1⟩

theorem headOp_ws_render (ws3 : List Char) (h : ws3.all pySpace = true) (B : NumLit)
    (hB : B.wf = true) (ws4 : List Char) :
    ∀ c t, ws3 ++ (B.render ++ ws4) = c :: t → c ≠ '/' ∧ c ≠ '*' := by
  intro c t he
  cases ws3 with
  | cons w wt =>
    simp only [List.cons_append] at he
    obtain ⟨rfl, -⟩ := List.cons_eq_cons.mp he
    have hw : pySpace w = true := by
      simp only [List.all_cons, Bool.and_eq_true] at h
      exact h.1
    exact ⟨(space_ne hw).2.2.1, (space_ne hw).2.2.2.1⟩
  | nil =>
    simp only [List.nil_append] at he
    obtain ⟨c', t', he', hc⟩ := render_head B hB ws4
    rw [he'] at he
    obtain ⟨rfl, -⟩ := List.cons_eq_cons.mp he
    rcases hc with rfl | hd
    · exact ⟨by decide, by decide⟩
    · exact ⟨(digit_ne hd).2.2.1, (digit_ne hd).2.2.2.1⟩

theorem parseExpr_complete (ws1 ws2 ws3 ws4 : List Char) (A B : NumLit) (o : Op)
    (hw1 : ws1.all pySpace = true) (hw2 : ws2.all pySpace = true)
    (hw3 : ws3.all pySpace = true) (hw4 : ws4.all pySpace = true)
    (hA : A.wf = true) (hB : B.wf = true) :
    parseExpr (ws1 ++ (A.render ++ (ws2 ++ (o.tok ++ (ws3 ++ (B.render ++ ws4))))))
      = some (A.render, o.tok, B.render) := by
  have e1 : dropWs (ws1 ++ (A.render ++ (ws2 ++ (o.tok ++ (ws3 ++ (B.render ++ ws4))))))
      = A.render ++ (ws2 ++ (o.tok ++ (ws3 ++ (B.render ++ ws4)))) := by
    rw [dropWs_append _ _ hw1, dropWs_render A hA _]
  have e2 : parseNumber (A.render ++ (ws2 ++ (o.tok ++ (ws3 ++ (B.render ++ ws4)))))
      = some (A.render, ws2 ++ (o.tok ++ (ws3 ++ (B.render ++ ws4)))) :=
    parseNumber_render A _ hA (headNF_ws_tok ws2 hw2 o _)
  have e3 : dropWs (ws2 ++ (o.tok ++ (ws3 ++ (B.render ++ ws4))))
      = o.tok ++ (ws3 ++ (B.render ++ ws4)) := by
    rw [dropWs_append _ _ hw2, dropWs_tok]
  have e4 : parseOpTok (o.tok ++ (ws3 ++ (B.render ++ ws4)))
      = some (o.tok, ws3 ++ (B.render ++ ws4)) :=
    parseOpTok_complete o _ (headOp_ws_render ws3 hw3 B hB ws4)
  have e5 : dropWs (ws3 ++ (B.render ++ ws4)) = B.render ++ ws4 := by
    rw [dropWs_append _ _ hw3, dropWs_render B hB _]
  have e6 : parseNumber (B.render ++ ws4) = some (B.render, ws4) :=
    parseNumber_render B _ hB (headNF_spaces ws4 hw4)
  have e7 : dropWs ws4 = [] := dw_self _ hw4
  simp [parseExpr, e1, e2, e3, e4, e5, e6, e7]

/-! ### Soundness of the parser: anything it accepts is grammatical -/

theorem parseUnsigned_sound {s m r : List Char} (h : parseUnsigned s = some (m, r)) :
    s = m ++ r ∧ ∃ L : NumLit, L.sign = false ∧ L.wf = true ∧ m = L.render := by
  have hsplit : s.takeWhile Char.isDigit ++ s.dropWhile Char.isDigit = s :=
    List.takeWhile_append_dropWhile Char.isDigit s
  unfold parseUnsigned at h
  split at h
  · exact absurd h (by simp)
  next hne =>
    have hne' : (s.takeWhile Char.isDigit).isEmpty = false := by
      simpa using hne
    split at h
    next hdw =>
      simp only [Option.some.injEq, Prod.mk.injEq] at h
      obtain ⟨rfl, rfl⟩ := h
      refine ⟨?_, ⟨false, s.takeWhile Char.isDigit, []⟩, rfl, ?_, ?_⟩
      · rw [List.append_nil]
        conv_lhs => rw [← hsplit]
        rw [hdw, List.append_nil]
      · simp [NumLit.wf, all_tw, hne']
      · simp [NumLit.render]
    next c r2 hdw =>
      split at h
      next hdot =>
        subst hdot
        split at h
        next hfs =>
          simp only [Option.some.injEq, Prod.mk.injEq] at h
          obtain ⟨rfl, rfl⟩ := h
          refine ⟨?_, ⟨false, s.takeWhile Char.isDigit, []⟩, rfl, ?_, ?_⟩
          · conv_lhs => rw [← hsplit]
            rw [hdw]
          · simp [NumLit.wf, all_tw, hne']
          · simp [NumLit.render]
        next hfs =>
          have hfs' : (r2.takeWhile Char.isDigit).isEmpty = false := by
            simpa using hfs
          simp only [Option.some.injEq, Prod.mk.injEq] at h
          obtain ⟨rfl, rfl⟩ := h
          refine ⟨?_, ⟨false, s.takeWhile Char.isDigit, r2.takeWhile Char.isDigit⟩,
            rfl, ?_, ?_⟩
          · conv_lhs => rw [← hsplit]
            rw [hdw]
            have h2 : r2.takeWhile Char.isDigit ++ r2.dropWhile Char.isDigit = r2 :=
              List.takeWhile_append_dropWhile Char.isDigit r2
            conv_lhs => rw [← h2]
            simp [List.append_assoc]
          · simp [NumLit.wf, all_tw, hne']
          · simp [NumLit.render, hfs']
      next hdot =>
        simp only [Option.some.injEq, Prod.mk.injEq] at h
        obtain ⟨rfl, rfl⟩ := h
        refine ⟨?_, ⟨false, s.takeWhile Char.isDigit, []⟩, rfl, ?_, ?_⟩
        · conv_lhs => rw [← hsplit]
          rw [hdw]
        · simp [NumLit.wf, all_tw, hne']
        · simp [NumLit.render]

theorem parseNumber_sound {s m r : List Char} (h : parseNumber s = some (m, r)) :
    s = m ++ r ∧ ∃ L : NumLit, L.wf = true ∧ m = L.render := by
  cases s with
  | nil => exact absurd h (by simp [parseNumber])
  | cons c t =>
    simp only [parseNumber] at h
    by_cases hminus : c = '-'
    · subst hminus
      rw [if_pos rfl] at h
      cases hu : parseUnsigned t with
      | none => rw [hu] at h; exact Option.noConfusion h
      | some p =>
        obtain ⟨m', r'⟩ := p
        rw [hu] at h
        have h' : some (('-' :: m', r')) = some ((m, r)) := h
        injection h' with h''
        injection h'' with hm hr
        subst hm
        subst hr
        obtain ⟨hts, L', hsg, hwf, hrd⟩ := parseUnsigned_sound hu
        refine ⟨by simp [hts], ⟨true, L'.ip, L'.fp⟩, ?_, ?_⟩
        · simpa [NumLit.wf] using hwf
        · rw [hrd]
          simp [NumLit.render, hsg]
    · rw [if_neg hminus] at h
      obtain ⟨hts, L', hsg, hwf, hrd⟩ := parseUnsigned_sound h
      exact ⟨hts, L', hwf, hrd⟩

theorem parseOpTok_sound {s t r : List Char} (h : parseOpTok s = some (t, r)) :
    s = t ++ r ∧ ∃ o : Op, t = o.tok := by
  cases s with
  | nil => exact absurd h (by simp [parseOpTok])
  | cons c1 r1 =>
    simp only [parseOpTok] at h
    by_cases h1 : c1 = '/'
    · subst h1
      rw [if_pos rfl] at h
      cases r1 with
      | nil =>
        have h' : some ((['/'] : List Char), ([] : List Char)) = some ((t, r)) := h
        injection h' with h''
        injection h'' with hm hr
        subst hm
        subst hr
        exact ⟨rfl, .div, rfl⟩
      | cons c2 r2 =>
        by_cases h2 : c2 = '/'
        · subst h2
          have h' : some ((['/', '/'] : List Char), r2) = some ((t, r)) := h
          injection h' with h''
          injection h'' with hm hr
          subst hm
          subst hr
          exact ⟨rfl, .floordiv, rfl⟩
        · have h' : (if c2 = '/' then some (['/', c2], r2) else some (['/'], c2 :: r2))
              = some ((t, r)) := h
          rw [if_neg h2] at h'
          injection h' with h''
          injection h'' with hm hr
          subst hm
          subst hr
          exact ⟨rfl, .div, rfl⟩
    · rw [if_neg h1] at h
      by_cases h1' : c1 = '*'
      · subst h1'
        rw [if_pos rfl] at h
        cases r1 with
        | nil =>
          have h' : some ((['*'] : List Char), ([] : List Char)) = some ((t, r)) := h
          injection h' with h''
          injection h'' with hm hr
          subst hm
          subst hr
          exact ⟨rfl, .mul, rfl⟩
        | cons c2 r2 =>
          by_cases h2 : c2 = '*'
          · subst h2
            have h' : some ((['*', '*'] : List Char), r2) = some ((t, r)) := h
            injection h' with h''
            injection h'' with hm hr
            subst hm
            subst hr
            exact ⟨rfl, .pow, rfl⟩
          · have h' : (if c2 = '*' then some (['*', c2], r2) else some (['*'], c2 :: r2))
                = some ((t, r)) := h
            rw [if_neg h2] at h'
            injection h' with h''
            injection h'' with hm hr
            subst hm
            subst hr
            exact ⟨rfl, .mul, rfl⟩
      · rw [if_neg h1'] at h
        by_cases hc : c1 = '+' ∨ c1 = '-' ∨ c1 = '%'
        · rw [if_pos hc] at h
          injection h with h''
          injection h'' with hm hr
          subst hm
          subst hr
          rcases hc with rfl | rfl | rfl
          · exact ⟨rfl, .add, rfl⟩
          · exact ⟨rfl, .sub, rfl⟩
          · exact ⟨rfl, .mod, rfl⟩
        · rw [if_neg hc] at h
          exact Option.noConfusion h

theorem parseExpr_sound {s a t b : List Char} (h : parseExpr s = some (a, t, b)) :
    MatchesGrammar s := by
  cases h1 : parseNumber (dropWs s) with
  | none =>
    simp only [parseExpr, h1] at h
    exact Option.noConfusion h
  | some p1 =>
    obtain ⟨a', r1⟩ := p1
    simp only [parseExpr, h1] at h
    cases h2 : parseOpTok (dropWs r1) with
    | none => simp only [h2] at h; exact Option.noConfusion h
    | some p2 =>
      obtain ⟨t', r2⟩ := p2
      simp only [h2] at h
      cases h3 : parseNumber (dropWs r2) with
      | none => simp only [h3] at h; exact Option.noConfusion h
      | some p3 =>
        obtain ⟨b', r3⟩ := p3
        simp only [h3] at h
        split at h
        next hemp =>
          simp only [Option.some.injEq, Prod.mk.injEq] at h
          obtain ⟨rfl, rfl, rfl⟩ := h
          obtain ⟨hd1, A, hwfA, hrdA⟩ := parseNumber_sound h1
          obtain ⟨hd2, o, hto⟩ := parseOpTok_sound h2
          obtain ⟨hd3, B, hwfB, hrdB⟩ := parseNumber_sound h3
          have hrE : r3 = r3.takeWhile pySpace := by
            have hh : r3.takeWhile pySpace ++ r3.dropWhile pySpace = r3 :=
              List.takeWhile_append_dropWhile pySpace r3
            have hnil : r3.dropWhile pySpace = [] := by
              simpa [dropWs, List.isEmpty_iff] using hemp
            conv_lhs => rw [← hh]
            rw [hnil, List.append_nil]
          have hsS : s = s.takeWhile pySpace ++ dropWs s :=
            (List.takeWhile_append_dropWhile pySpace s).symm
          have hr1 : r1 = r1.takeWhile pySpace ++ dropWs r1 :=
            (List.takeWhile_append_dropWhile pySpace r1).symm
          have hr2 : r2 = r2.takeWhile pySpace ++ dropWs r2 :=
            (List.takeWhile_append_dropWhile pySpace r2).symm
          refine ⟨s.takeWhile pySpace, r1.takeWhile pySpace, r2.takeWhile pySpace,
            r3, A, B, o, all_tw pySpace s, all_tw pySpace r1, all_tw pySpace r2, ?_,
            hwfA, hwfB, ?_⟩
          · rw [hrE]; exact all_tw pySpace r3
          · conv_lhs => rw [hsS, hd1, hrdA, hr1, hd2, hto, hr2, hd3, hrdB]
        next => exact Option.noConfusion h

/-- The grammar and the matcher agree: an input matches the grammar of
`EXPR_RE` exactly when the matcher accepts it. -/
theorem grammar_iff_parse (s : List Char) :
    MatchesGrammar s ↔ (parseExpr s).isSome = true := by
  constructor
  · rintro ⟨ws1, ws2, ws3, ws4, A, B, o, hw1, hw2, hw3, hw4, hA, hB, rfl⟩
    rw [parseExpr_complete ws1 ws2 ws3 ws4 A B o hw1 hw2 hw3 hw4 hA hB]
    rfl
  · intro h
    cases hp : parseExpr s with
    | none => rw [hp] at h; cases h
    | some p =>
      obtain ⟨a, t, b⟩ := p
      exact parseExpr_sound hp

/-! ### From parsing to evaluation -/

theorem parseExpr_decomp {s a t b : List Char} (h : parseExpr s = some (a, t, b)) :
    ∃ (ws1 ws2 ws3 ws4 : List Char) (A B : NumLit) (o : Op),
      ws1.all pySpace = true ∧ ws2.all pySpace = true ∧
      ws3.all pySpace = true ∧ ws4.all pySpace = true ∧
      A.wf = true ∧ B.wf = true ∧ a = A.render ∧ t = o.tok ∧ b = B.render ∧
      s = ws1 ++ (a ++ (ws2 ++ (t ++ (ws3 ++ (b ++ ws4))))) := by
  cases h1 : parseNumber (dropWs s) with
  | none =>
    simp only [parseExpr, h1] at h
    exact Option.noConfusion h
  | some p1 =>
    obtain ⟨a', r1⟩ := p1
    simp only [parseExpr, h1] at h
    cases h2 : parseOpTok (dropWs r1) with
    | none => simp only [h2] at h; exact Option.noConfusion h
    | some p2 =>
      obtain ⟨t', r2⟩ := p2
      simp only [h2] at h
      cases h3 : parseNumber (dropWs r2) with
      | none => simp only [h3] at h; exact Option.noConfusion h
      | some p3 =>
        obtain ⟨b', r3⟩ := p3
        simp only [h3] at h
        split at h
        next hemp =>
          simp only [Option.some.injEq, Prod.mk.injEq] at h
          obtain ⟨rfl, rfl, rfl⟩ := h
          obtain ⟨hd1, A, hwfA, hrdA⟩ := parseNumber_sound h1
          obtain ⟨hd2, o, hto⟩ := parseOpTok_sound h2
          obtain ⟨hd3, B, hwfB, hrdB⟩ := parseNumber_sound h3
          have hr3all : r3.all pySpace = true := by
            have hh : r3.takeWhile pySpace ++ r3.dropWhile pySpace = r3 :=
              List.takeWhile_append_dropWhile pySpace r3
            have hnil : r3.dropWhile pySpace = [] := by
              simpa [dropWs, List.isEmpty_iff] using hemp
            conv_lhs => rw [← hh]
            rw [hnil, List.append_nil]
            exact all_tw pySpace r3
          have hsS : s = s.takeWhile pySpace ++ dropWs s :=
            (List.takeWhile_append_dropWhile pySpace s).symm
          have hr1 : r1 = r1.takeWhile pySpace ++ dropWs r1 :=
            (List.takeWhile_append_dropWhile pySpace r1).symm
          have hr2 : r2 = r2.takeWhile pySpace ++ dropWs r2 :=
            (List.takeWhile_append_dropWhile pySpace r2).symm
          refine ⟨s.takeWhile pySpace, r1.takeWhile pySpace, r2.takeWhile pySpace,
            r3, A, B, o, all_tw pySpace s, all_tw pySpace r1, all_tw pySpace r2,
            hr3all, hwfA, hwfB, hrdA, hto, hrdB, ?_⟩
          conv_lhs => rw [hsS, hd1, hr1, hd2, hr2, hd3]
        next => exact Option.noConfusion h

theorem strToRat_render (L : NumLit) (hwf : L.wf = true) : strToRat L.render = L.val := by
  obtain ⟨h1, h2, h3⟩ := wf_parts hwf
  have hU : strToRatU (L.ip ++ (if L.fp.isEmpty then [] else '.' :: L.fp))
      = (digitsToNat L.ip : ℚ) + (digitsToNat L.fp : ℚ) / 10 ^ L.fp.length := by
    cases hfp : L.fp with
    | nil =>
      simp only [List.isEmpty_nil, if_true, List.append_nil]
      simp only [strToRatU, dw_self L.ip h2, tw_self L.ip h2]
      simp [digitsToNat]
    | cons f ft =>
      rw [hfp] at h3
      have hdw : ((L.ip ++ ('.' :: (f :: ft))).dropWhile Char.isDigit)
          = '.' :: (f :: ft) := by
        rw [dw_append _ _ h2]
        exact dw_cons_neg _ rfl
      have htw : ((L.ip ++ ('.' :: (f :: ft))).takeWhile Char.isDigit) = L.ip := by
        rw [tw_append _ _ h2, tw_cons_neg _ rfl, List.append_nil]
      simp [strToRatU, hdw, htw, tw_self _ h3]
  cases hs : L.sign
  · have hrender : L.render = L.ip ++ (if L.fp.isEmpty then [] else '.' :: L.fp) := by
      simp [NumLit.render, hs]
    rw [hrender]
    cases hip : L.ip with
    | nil => rw [hip] at h1; cases h1
    | cons d dt =>
      have hd : d.isDigit = true := by
        rw [hip] at h2
        simp only [List.all_cons, Bool.and_eq_true] at h2
        exact h2.1
      simp only [List.cons_append]
      simp only [strToRat, if_neg (digit_ne hd).2.1]
      rw [← List.cons_append, ← hip, hU]
      simp [NumLit.val, hs]
  · have hrender : L.render = '-' :: (L.ip ++ (if L.fp.isEmpty then [] else '.' :: L.fp)) := by
      simp [NumLit.render, hs]
    rw [hrender]
    simp only [strToRat, if_pos rfl]
    rw [hU]
    simp [NumLit.val, hs, neg_one_mul]

theorem lookup_tok (o : Op) : List.lookup o.tok OPS = some (opFun o) := by
  cases o <;> rfl

/-- Evaluation of any accepted input, as a function of the captured groups:
either the division-by-zero check fires, or the table entry is applied to the
converted operands. -/
theorem calc_cases (s : List Char) :
    calculate_expression s = .error .malformed ∨
    ∃ (a t b : List Char) (o : Op), parseExpr s = some (a, t, b) ∧ t = o.tok ∧
      calculate_expression s =
        (if (t = ['/'] ∨ t = ['/', '/'] ∨ t = ['%']) ∧ strToRat b = 0 then
          .error .divisionByZero
        else opFun o (strToRat a) (strToRat b)) := by
  cases hp : parseExpr s with
  | none => left; simp [calculate_expression, hp]
  | some p =>
    right
    obtain ⟨a, t, b⟩ := p
    obtain ⟨-, -, -, -, -, -, o, -, -, -, -, -, -, -, hto, -, -⟩ := parseExpr_decomp hp
    subst hto
    refine ⟨a, o.tok, b, o, rfl, rfl, ?_⟩
    simp only [calculate_expression, hp, lookup_tok o]

theorem calculate_rendered (ws1 ws2 ws3 ws4 : List Char) (A B : NumLit) (o : Op)
    (hw1 : ws1.all pySpace = true) (hw2 : ws2.all pySpace = true)
    (hw3 : ws3.all pySpace = true) (hw4 : ws4.all pySpace = true)
    (hA : A.wf = true) (hB : B.wf = true) :
    calculate_expression (ws1 ++ (A.render ++ (ws2 ++ (o.tok ++ (ws3 ++ (B.render ++ ws4))))))
      = (if (o.tok = ['/'] ∨ o.tok = ['/', '/'] ∨ o.tok = ['%']) ∧ B.val = 0 then
          .error .divisionByZero
        else opFun o A.val B.val) := by
  simp only [calculate_expression,
    parseExpr_complete ws1 ws2 ws3 ws4 A B o hw1 hw2 hw3 hw4 hA hB,
    lookup_tok o, strToRat_render A hA, strToRat_render B hB]

theorem guard_false (o : Op) (bv : ℚ)
    (hdiv : (o = .div ∨ o = .floordiv ∨ o = .mod) → bv ≠ 0) :
    ¬((o.tok = ['/'] ∨ o.tok = ['/', '/'] ∨ o.tok = ['%']) ∧ bv = 0) := by
  rintro ⟨hg, hb0⟩
  cases o
  case div => exact hdiv (Or.inl rfl) hb0
  case floordiv => exact hdiv (Or.inr (Or.inl rfl)) hb0
  case mod => exact hdiv (Or.inr (Or.inr rfl)) hb0
  all_goals simp [Op.tok] at hg

theorem guard_true (o : Op) (bv : ℚ) (ho : o = .div ∨ o = .floordiv ∨ o = .mod)
    (hb0 : bv = 0) :
    (o.tok = ['/'] ∨ o.tok = ['/', '/'] ∨ o.tok = ['%']) ∧ bv = 0 := by
  refine ⟨?_, hb0⟩
  rcases ho with rfl | rfl | rfl
  · exact Or.inl rfl
  · exact Or.inr (Or.inl rfl)
  · exact Or.inr (Or.inr rfl)

theorem opFun_ok (o : Op) (a b : ℚ)
    (hdiv : (o = .div ∨ o = .floordiv ∨ o = .mod) → b ≠ 0)
    (hpow : o = .pow → ¬(a = 0 ∧ b < 0)) :
    opFun o a b = .ok (mathResult o a b) := by
  cases o
  case add => rfl
  case sub => rfl
  case mul => rfl
  case div =>
    have hb := hdiv (Or.inl rfl)
    simp [opFun, divOp, mathResult, hb]
  case floordiv =>
    have hb := hdiv (Or.inr (Or.inl rfl))
    simp [opFun, floordivOp, mathResult, hb]
  case mod =>
    have hb := hdiv (Or.inr (Or.inr rfl))
    simp [opFun, modOp, mathResult, hb]
  case pow =>
    have hp := hpow rfl
    simp only [opFun, powOp, mathResult, if_neg hp]
    split <;> rfl

/-- The division-by-zero check at source line 61 runs before the table entry
is applied: the `ZeroDivisionError`s the lambdas would raise on a zero
divisor can never surface. -/
theorem calc_lambda_zero_free (s : List Char) :
    lambdaZeroErrFree (calculate_expression s) = true := by
  rcases calc_cases s with h | ⟨a, t, b, o, hp, rfl, h⟩
  · rw [h]; rfl
  · rw [h]
    split
    · rfl
    next hneg =>
      cases o
      case add => rfl
      case sub => rfl
      case mul => rfl
      case div =>
        have hb : ¬(strToRat b = 0) := fun hb0 => hneg ⟨Or.inl rfl, hb0⟩
        simp only [opFun, divOp, if_neg hb]
        rfl
      case floordiv =>
        have hb : ¬(strToRat b = 0) := fun hb0 => hneg ⟨Or.inr (Or.inl rfl), hb0⟩
        simp only [opFun, floordivOp, if_neg hb]
        rfl
      case mod =>
        have hb : ¬(strToRat b = 0) := fun hb0 => hneg ⟨Or.inr (Or.inr rfl), hb0⟩
        simp only [opFun, modOp, if_neg hb]
        rfl
      case pow =>
        simp only [opFun, powOp]
        split
        · rfl
        · split <;> rfl

/-- The "Unsupported operator" branch at source lines 57–58 is dead code:
no input can reach it. -/
theorem calc_unsupported_free (s : List Char) :
    isUnsupportedErr (calculate_expression s) = false := by
  rcases calc_cases s with h | ⟨a, t, b, o, hp, rfl, h⟩
  · rw [h]; rfl
  · rw [h]
    split
    · rfl
    · cases o
      case add => rfl
      case sub => rfl
      case mul => rfl
      case div =>
        simp only [opFun, divOp]
        split <;> rfl
      case floordiv =>
        simp only [opFun, floordivOp]
        split <;> rfl
      case mod =>
        simp only [opFun, modOp]
        split <;> rfl
      case pow =>
        simp only [opFun, powOp]
        split
        · rfl
        · split <;> rfl

/-! ### Arithmetic facts about the floor-consistent modulo -/

theorem mod_decomp (a b : ℚ) :
    a = ((⌊a / b⌋ : ℤ) : ℚ) * b + (a - b * ((⌊a / b⌋ : ℤ) : ℚ)) := by
  ring

theorem mod_sign (a b : ℚ) (hb : b ≠ 0) :
    a - b * ((⌊a / b⌋ : ℤ) : ℚ) = 0 ∨
    (0 < b ∧ 0 < a - b * ((⌊a / b⌋ : ℤ) : ℚ)) ∨
    (b < 0 ∧ a - b * ((⌊a / b⌋ : ℤ) : ℚ) < 0) := by
  have hba : b * (a / b) = a := by field_simp
  have hfr : a - b * ((⌊a / b⌋ : ℤ) : ℚ) = b * Int.fract (a / b) := by
    rw [Int.fract, mul_sub, hba]
  rcases eq_or_lt_of_le (Int.fract_nonneg (a / b)) with hf0 | hfpos
  · left
    rw [hfr, ← hf0, mul_zero]
  · rcases lt_trichotomy b 0 with hbneg | hb0 | hbpos
    · right; right
      exact ⟨hbneg, by rw [hfr]; exact mul_neg_of_neg_of_pos hbneg hfpos⟩
    · exact absurd hb0 hb
    · right; left
      exact ⟨hbpos, by rw [hfr]; exact mul_pos hbpos hfpos⟩

/-! ### Character structure of the two renderers -/

theorem natDecAux_digits : ∀ (fuel n : ℕ), ∀ c ∈ natDecAux fuel n, c.isDigit = true := by
  intro fuel
  induction fuel with
  | zero => intro n c hc; simp [natDecAux] at hc
  | succ f ih =>
    intro n c hc
    rw [natDecAux] at hc
    split at hc
    next h10 =>
      simp only [List.mem_singleton] at hc
      subst hc
      interval_cases n <;> rfl
    next =>
      rw [List.mem_append] at hc
      rcases hc with hc | hc
      · exact ih _ c hc
      · simp only [List.mem_singleton] at hc
        subst hc
        have hlt : n % 10 < 10 := Nat.mod_lt _ (by norm_num)
        revert hlt
        generalize n % 10 = m
        intro hlt
        interval_cases m <;> rfl

theorem dot_notMem_natDec (n : ℕ) : '.' ∉ natDec n := by
  intro h
  exact absurd (natDecAux_digits (n + 1) n '.' h) (by decide)

theorem dot_notMem_intRender (n : ℤ) : '.' ∉ intRender n := by
  unfold intRender
  split
  · intro h
    rcases List.mem_cons.mp h with h1 | h1
    · exact absurd h1 (by decide)
    · exact dot_notMem_natDec _ h1
  · exact dot_notMem_natDec _

theorem dot_mem_floatRepr (x : ℚ) : '.' ∈ floatRepr x := by
  unfold floatRepr
  simp [List.mem_append, List.mem_cons]

/-! ### REPL step and loop facts -/

theorem replStep_quit (s : List Char) (h : asciiLower (pyStrip s) ∈ quitCommands) :
    replStep s = (["Goodbye.".data], false) := by
  have hne : (pyStrip s).isEmpty = false := by
    cases hstrip : pyStrip s with
    | nil => rw [hstrip] at h; simp [asciiLower, quitCommands] at h
    | cons c t => rfl
  unfold replStep
  simp [hne, h]

theorem replStep_stop {s : List Char} {out : List (List Char)}
    (h : replStep s = (out, false)) : asciiLower (pyStrip s) ∈ quitCommands := by
  unfold replStep at h
  split at h
  · injection h with h1 h2
    cases h2
  split at h
  next hq => exact hq
  next hq =>
    split at h
    · injection h with h1 h2
      cases h2
    · split at h
      · injection h with h1 h2
        cases h2
      · injection h with h1 h2
        cases h2

theorem replStep_error (s : List Char) (e : CalcError)
    (hne : pyStrip s ≠ []) (hq : asciiLower (pyStrip s) ∉ quitCommands)
    (hh : asciiLower (pyStrip s) ≠ "help".data)
    (hc : calculate_expression (pyStrip s) = .error e) :
    replStep s = (["Error: ".data ++ errMessage e], true) := by
  have hne' : ¬((pyStrip s).isEmpty = true) := by
    simpa [List.isEmpty_iff] using hne
  unfold replStep
  rw [if_neg hne', if_neg hq, if_neg hh, hc]

theorem runREPL_cons_error (s : List Char) (rest : List (List Char)) (e : CalcError)
    (hne : pyStrip s ≠ []) (hq : asciiLower (pyStrip s) ∉ quitCommands)
    (hh : asciiLower (pyStrip s) ≠ "help".data)
    (hc : calculate_expression (pyStrip s) = .error e) :
    runREPL (s :: rest) = ("Error: ".data ++ errMessage e) :: runREPL rest := by
  simp [runREPL, replStep_error s e hne hq hh hc]

/-! ### Counting occurrences, for the longest-first matching claim -/

theorem count_render (L : NumLit) (hwf : L.wf = true) (c : Char)
    (hc1 : c.isDigit = false) (hc2 : c ≠ '-') (hc3 : c ≠ '.') :
    L.render.count c = 0 := by
  obtain ⟨h1, h2, h3⟩ := wf_parts hwf
  have hip : L.ip.count c = 0 := by
    rw [List.count_eq_zero]
    intro hm
    rw [List.all_eq_true] at h2
    have hd := h2 c hm
    rw [hc1] at hd
    cases hd
  have hfp : L.fp.count c = 0 := by
    rw [List.count_eq_zero]
    intro hm
    rw [List.all_eq_true] at h3
    have hd := h3 c hm
    rw [hc1] at hd
    cases hd
  have hsg : (if L.sign then ['-'] else []).count c = 0 := by
    cases L.sign
    · simp
    · simp [List.count_cons, hc2]
  have hfr : (if L.fp = [] then [] else '.' :: L.fp).count c = 0 := by
    split
    · simp
    · rw [List.count_cons, hfp]
      simp
      exact fun hh => hc3 hh.symm
  unfold NumLit.render
  simp [List.count_append, hip, hfp, hsg, hfr]

theorem count_spaces (ws : List Char) (h : ws.all pySpace = true) (c : Char)
    (hc : pySpace c = false) : ws.count c = 0 := by
  rw [List.count_eq_zero]
  intro hm
  rw [List.all_eq_true] at h
  have hs := h c hm
  rw [hc] at hs
  cases hs

theorem hasDouble_two_le (c : Char) : ∀ l : List Char, hasDouble c l = true → 2 ≤ l.count c := by
  intro l
  induction l with
  | nil => intro h; simp [hasDouble] at h
  | cons a t ih =>
    cases t with
    | nil => intro h; simp [hasDouble] at h
    | cons b t2 =>
      intro h
      rw [hasDouble] at h
      simp only [Bool.or_eq_true, Bool.and_eq_true, decide_eq_true_eq] at h
      rcases h with ⟨ha, hb⟩ | h
      · rw [ha, hb]
        have hcc : (c :: c :: t2).count c = t2.count c + 1 + 1 := by
          simp [List.count_cons]
        omega
      · have h2 := ih h
        have hsub : (b :: t2).Sublist (a :: b :: t2) := List.sublist_cons_self a (b :: t2)
        exact le_trans h2 (hsub.count_le c)

/-! ### The claims -/

/-- C1 (amended): for every well-formed input `<a> <op> <b>` with `b ≠ 0`
when `op` is `/`, `//` or `%`, and not (`op` is `**` with `a = 0` and
`b < 0`) — the case where the host power operation itself fails —
`calculate_expression` succeeds and returns the mathematically correct result
of applying `op` to `a` and `b` (`a+b`, `a-b`, `a*b`, `a/b`, `⌊a/b⌋`,
`a mod b`, and for `**` the exact power `a^b` whenever `b` is an integer,
the host's floating-point approximation of `a^b` otherwise). -/
theorem C1_calculate_correct (ws1 ws2 ws3 ws4 : List Char) (A B : NumLit) (o : Op)
    (hw1 : ws1.all pySpace = true) (hw2 : ws2.all pySpace = true)
    (hw3 : ws3.all pySpace = true) (hw4 : ws4.all pySpace = true)
    (hA : A.wf = true) (hB : B.wf = true)
    (hdiv : (o = .div ∨ o = .floordiv ∨ o = .mod) → B.val ≠ 0)
    (hpow : o = .pow → ¬(A.val = 0 ∧ B.val < 0)) :
    calculate_expression (ws1 ++ (A.render ++ (ws2 ++ (o.tok ++ (ws3 ++ (B.render ++ ws4))))))
      = .ok (mathResult o A.val B.val) := by
  rw [calculate_rendered ws1 ws2 ws3 ws4 A B o hw1 hw2 hw3 hw4 hA hB,
    if_neg (guard_false o B.val hdiv), opFun_ok o A.val B.val hdiv hpow]

/-- C1 counterexample: `"0 ** -2"` is well-formed and its operator `**` is
not in the claim's `b ≠ 0` set, yet evaluation does not succeed: the host
raises its zero-division error inside the `**` operation. -/
theorem C1_counterexample :
    isOkB (calculate_expression ("0 ** -2".data)) = false ∧
    calculate_expression ("0 ** -2".data) = .error .zeroToNegativePower := by
  constructor <;> with_unfolding_all rfl

/-- C1 witness: evaluating `"2 + 3"` through the amended theorem. -/
theorem C1_witness :
    calculate_expression ("2 + 3".data)
      = .ok (mathResult .add (NumLit.val ⟨false, ['2'], []⟩) (NumLit.val ⟨false, ['3'], []⟩)) := by
  have h := C1_calculate_correct [] [' '] [' '] [] ⟨false, ['2'], []⟩ ⟨false, ['3'], []⟩ .add
    (by decide) (by decide) (by decide) (by decide) (by decide) (by decide)
    (fun hc => absurd hc (by decide)) (fun hc => absurd hc (by decide))
  exact h

/-- C2: for every well-formed input whose operator is `/`, `//` or `%` and
whose right operand denotes zero, evaluation fails with the
`DIVISION_BY_ZERO` kind and message `Division by zero is not allowed`; and the
check runs before the operation is applied — the lambdas' own zero-division
errors can never surface from `calculate_expression` on any input. -/
theorem C2_division_by_zero (ws1 ws2 ws3 ws4 : List Char) (A B : NumLit) (o : Op)
    (hw1 : ws1.all pySpace = true) (hw2 : ws2.all pySpace = true)
    (hw3 : ws3.all pySpace = true) (hw4 : ws4.all pySpace = true)
    (hA : A.wf = true) (hB : B.wf = true)
    (ho : o = .div ∨ o = .floordiv ∨ o = .mod) (hb0 : B.val = 0) :
    calculate_expression (ws1 ++ (A.render ++ (ws2 ++ (o.tok ++ (ws3 ++ (B.render ++ ws4))))))
      = .error .divisionByZero ∧
    errMessage .divisionByZero = "Division by zero is not allowed".data ∧
    ∀ s, lambdaZeroErrFree (calculate_expression s) = true := by
  refine ⟨?_, rfl, calc_lambda_zero_free⟩
  rw [calculate_rendered ws1 ws2 ws3 ws4 A B o hw1 hw2 hw3 hw4 hA hB,
    if_pos (guard_true o B.val ho hb0)]

/-- C2 witness: `"5 / 0"`. -/
theorem C2_witness :
    calculate_expression ("5 / 0".data) = .error .divisionByZero ∧
    errMessage .divisionByZero = "Division by zero is not allowed".data := by
  have h := C2_division_by_zero [] [' '] [' '] [] ⟨false, ['5'], []⟩ ⟨false, ['0'], []⟩ .div
    (by decide) (by decide) (by decide) (by decide) (by decide) (by decide)
    (Or.inl rfl) (by with_unfolding_all rfl)
  exact ⟨h.1, h.2.1⟩

/-- C3: an input matches the grammar exactly when the matcher accepts it,
and every input that does not match the grammar in its entirety fails with
the `MALFORMED_EXPRESSION` kind and the message
`Invalid format. Use: <number> <operator> <number> (try 'help')`. -/
theorem C3_malformed (s : List Char) :
    (MatchesGrammar s ↔ (parseExpr s).isSome = true) ∧
    (¬ MatchesGrammar s →
      calculate_expression s = .error .malformed ∧
      errMessage .malformed
        = "Invalid format. Use: <number> <operator> <number> (try 'help')".data) := by
  refine ⟨grammar_iff_parse s, fun hm => ⟨?_, rfl⟩⟩
  cases hp : parseExpr s with
  | none => simp [calculate_expression, hp]
  | some p =>
    obtain ⟨a, t, b⟩ := p
    exact absurd (parseExpr_sound hp) hm

/-- C3 witness: `"banana"`. -/
theorem C3_witness :
    calculate_expression ("banana".data) = .error .malformed ∧
    errMessage .malformed
      = "Invalid format. Use: <number> <operator> <number> (try 'help')".data :=
  (C3_malformed ("banana".data)).2
    (fun hm => absurd ((C3_malformed ("banana".data)).1.mp hm) (by decide))

/-- C4 (amended): a well-formed input whose operator is `+`, `-`, `*` or `**`
never fails with the `DIVISION_BY_ZERO` kind; and for `**` evaluation
succeeds for every right operand `b` except when `a = 0` and `b < 0`, where
the host power operation itself fails (with its own zero-division error,
distinct from the `DIVISION_BY_ZERO` kind). -/
theorem C4_no_divzero (ws1 ws2 ws3 ws4 : List Char) (A B : NumLit) (o : Op)
    (hw1 : ws1.all pySpace = true) (hw2 : ws2.all pySpace = true)
    (hw3 : ws3.all pySpace = true) (hw4 : ws4.all pySpace = true)
    (hA : A.wf = true) (hB : B.wf = true)
    (ho : o = .add ∨ o = .sub ∨ o = .mul ∨ o = .pow) :
    isDivZeroErr (calculate_expression
        (ws1 ++ (A.render ++ (ws2 ++ (o.tok ++ (ws3 ++ (B.render ++ ws4))))))) = false ∧
    (o = .pow → ¬(A.val = 0 ∧ B.val < 0) →
      isOkB (calculate_expression
        (ws1 ++ (A.render ++ (ws2 ++ (o.tok ++ (ws3 ++ (B.render ++ ws4))))))) = true) := by
  have hdiv : (o = .div ∨ o = .floordiv ∨ o = .mod) → B.val ≠ 0 := by
    intro hcontra
    exfalso
    rcases ho with rfl | rfl | rfl | rfl <;>
      rcases hcontra with h | h | h <;> exact Op.noConfusion h
  constructor
  · rw [calculate_rendered ws1 ws2 ws3 ws4 A B o hw1 hw2 hw3 hw4 hA hB,
      if_neg (guard_false o B.val hdiv)]
    rcases ho with rfl | rfl | rfl | rfl
    · rfl
    · rfl
    · rfl
    · simp only [opFun, powOp]
      split
      · rfl
      · split <;> rfl
  · rintro rfl hpow
    rw [calculate_rendered ws1 ws2 ws3 ws4 A B .pow hw1 hw2 hw3 hw4 hA hB,
      if_neg (guard_false .pow B.val hdiv),
      opFun_ok .pow A.val B.val hdiv (fun _ => hpow)]
    rfl

/-- C4 counterexample: for `"0 ** -1"` evaluation does not succeed,
refuting "evaluation succeeds for any right operand b". -/
theorem C4_counterexample :
    isOkB (calculate_expression ("0 ** -1".data)) = false ∧
    calculate_expression ("0 ** -1".data) = .error .zeroToNegativePower := by
  constructor <;> with_unfolding_all rfl

/-- C4 witness: `"2 ** 0"` through the amended theorem. -/
theorem C4_witness :
    isDivZeroErr (calculate_expression ("2 ** 0".data)) = false ∧
    isOkB (calculate_expression ("2 ** 0".data)) = true := by
  have hval : NumLit.val ⟨false, ['2'], []⟩ = 2 := by with_unfolding_all rfl
  have h := C4_no_divzero [] [' '] [' '] [] ⟨false, ['2'], []⟩ ⟨false, ['0'], []⟩ .pow
    (by decide) (by decide) (by decide) (by decide) (by decide) (by decide)
    (Or.inr (Or.inr (Or.inr rfl)))
  refine ⟨h.1, h.2 rfl ?_⟩
  rintro ⟨h0, -⟩
  rw [hval] at h0
  norm_num at h0

/-- C5: for well-formed `<a> % <b>` with `b ≠ 0`, the result is the
floor-consistent modulo `a - b⌊a/b⌋`: it is zero or has the sign of the
divisor, and `a = ⌊a/b⌋·b + r`; and `<a> // <b>` returns `⌊a/b⌋`, the floor
of `a/b` (in particular `"-9 // 2"` gives `-5`, not truncation's `-4`). -/
theorem C5_mod_floordiv (ws1 ws2 ws3 ws4 : List Char) (A B : NumLit)
    (hw1 : ws1.all pySpace = true) (hw2 : ws2.all pySpace = true)
    (hw3 : ws3.all pySpace = true) (hw4 : ws4.all pySpace = true)
    (hA : A.wf = true) (hB : B.wf = true) (hb : B.val ≠ 0) :
    calculate_expression
        (ws1 ++ (A.render ++ (ws2 ++ (Op.mod.tok ++ (ws3 ++ (B.render ++ ws4))))))
      = .ok (.rat (A.val - B.val * ((⌊A.val / B.val⌋ : ℤ) : ℚ))) ∧
    (A.val - B.val * ((⌊A.val / B.val⌋ : ℤ) : ℚ) = 0 ∨
      (0 < B.val ∧ 0 < A.val - B.val * ((⌊A.val / B.val⌋ : ℤ) : ℚ)) ∨
      (B.val < 0 ∧ A.val - B.val * ((⌊A.val / B.val⌋ : ℤ) : ℚ) < 0)) ∧
    A.val = ((⌊A.val / B.val⌋ : ℤ) : ℚ) * B.val
      + (A.val - B.val * ((⌊A.val / B.val⌋ : ℤ) : ℚ)) ∧
    calculate_expression
        (ws1 ++ (A.render ++ (ws2 ++ (Op.floordiv.tok ++ (ws3 ++ (B.render ++ ws4))))))
      = .ok (.rat ((⌊A.val / B.val⌋ : ℤ) : ℚ)) ∧
    ((⌊A.val / B.val⌋ : ℤ) : ℚ) ≤ A.val / B.val ∧
    A.val / B.val < ((⌊A.val / B.val⌋ : ℤ) : ℚ) + 1 ∧
    calculate_expression ("-9 // 2".data) = .ok (.rat (-5)) := by
  have hdiv : ∀ o : Op, (o = .div ∨ o = .floordiv ∨ o = .mod) → B.val ≠ 0 :=
    fun _ _ => hb
  refine ⟨?_, mod_sign A.val B.val hb, mod_decomp A.val B.val, ?_,
    Int.floor_le (A.val / B.val), Int.lt_floor_add_one (A.val / B.val), ?_⟩
  · rw [calculate_rendered ws1 ws2 ws3 ws4 A B .mod hw1 hw2 hw3 hw4 hA hB,
      if_neg (guard_false .mod B.val (hdiv .mod)),
      opFun_ok .mod A.val B.val (hdiv .mod) (fun hc => Op.noConfusion hc)]
    rfl
  · rw [calculate_rendered ws1 ws2 ws3 ws4 A B .floordiv hw1 hw2 hw3 hw4 hA hB,
      if_neg (guard_false .floordiv B.val (hdiv .floordiv)),
      opFun_ok .floordiv A.val B.val (hdiv .floordiv) (fun hc => Op.noConfusion hc)]
    rfl
  · with_unfolding_all rfl

/-- C5 witness: `"10 % 3"`. -/
theorem C5_witness :
    calculate_expression ("10 % 3".data)
      = .ok (.rat (NumLit.val ⟨false, ['1', '0'], []⟩
          - NumLit.val ⟨false, ['3'], []⟩
            * ((⌊NumLit.val ⟨false, ['1', '0'], []⟩ / NumLit.val ⟨false, ['3'], []⟩⌋ : ℤ) : ℚ))) := by
  have hval : NumLit.val ⟨false, ['3'], []⟩ = 3 := by with_unfolding_all rfl
  have h := C5_mod_floordiv [] [' '] [' '] [] ⟨false, ['1', '0'], []⟩ ⟨false, ['3'], []⟩
    (by decide) (by decide) (by decide) (by decide) (by decide) (by decide)
    (by rw [hval]; norm_num)
  exact h.1

/-- C6: operator tokens are matched longest-first: `"2 ** 8"` evaluates to
`256` and `"9 // 2"` to `4`; and on any accepted input containing two
adjacent `*` (resp. `/`) characters the captured operator is the single
token `**` (resp. `//`) — it can never be read as two one-character
tokens. -/
theorem C6_longest_first :
    calculate_expression ("2 ** 8".data) = .ok (.rat 256) ∧
    calculate_expression ("9 // 2".data) = .ok (.rat 4) ∧
    (∀ s a t b, parseExpr s = some (a, t, b) →
      (hasDouble '*' s = true → t = ['*', '*']) ∧
      (hasDouble '/' s = true → t = ['/', '/'])) := by
  refine ⟨by with_unfolding_all rfl, by with_unfolding_all rfl, ?_⟩
  intro s a t b hp
  obtain ⟨ws1, ws2, ws3, ws4, A, B, o, hw1, hw2, hw3, hw4, hA, hB, ha, hto, hbr, hs⟩ :=
    parseExpr_decomp hp
  subst ha
  subst hbr
  subst hto
  subst hs
  constructor
  · intro hd
    have h2 := hasDouble_two_le '*' _ hd
    simp only [List.count_append] at h2
    rw [count_spaces ws1 hw1 '*' rfl, count_spaces ws2 hw2 '*' rfl,
      count_spaces ws3 hw3 '*' rfl, count_spaces ws4 hw4 '*' rfl,
      count_render A hA '*' rfl (by decide) (by decide),
      count_render B hB '*' rfl (by decide) (by decide)] at h2
    simp only [Nat.zero_add, Nat.add_zero] at h2
    cases o
    case pow => rfl
    all_goals exact absurd h2 (by decide)
  · intro hd
    have h2 := hasDouble_two_le '/' _ hd
    simp only [List.count_append] at h2
    rw [count_spaces ws1 hw1 '/' rfl, count_spaces ws2 hw2 '/' rfl,
      count_spaces ws3 hw3 '/' rfl, count_spaces ws4 hw4 '/' rfl,
      count_render A hA '/' rfl (by decide) (by decide),
      count_render B hB '/' rfl (by decide) (by decide)] at h2
    simp only [Nat.zero_add, Nat.add_zero] at h2
    cases o
    case floordiv => rfl
    all_goals exact absurd h2 (by decide)

/-- C6 witness: `"2 ** 8"` and `"9 // 2"` instantiate the universal part. -/
theorem C6_witness :
    (['*', '*'] : List Char) = ['*', '*'] ∧ (['/', '/'] : List Char) = ['/', '/'] :=
  ⟨(C6_longest_first.2.2 ("2 ** 8".data) ['2'] ['*', '*'] ['8'] (by decide)).1 (by decide),
   (C6_longest_first.2.2 ("9 // 2".data) ['9'] ['/', '/'] ['2'] (by decide)).2 (by decide)⟩

/-- C7: `format_number` renders a value as a plain integer string (the
rendering of its truncation, containing no dot) exactly when the value
equals its integer truncation; the result of `"4 / 2"` formats to `"2"` and
the result of `"9 / 2"` to `"4.5"`. -/
theorem C7_format_number :
    (∀ x : ℚ, (format_number x = intRender (pyTrunc x) ∧ '.' ∉ format_number x) ↔
      x = ((pyTrunc x : ℤ) : ℚ)) ∧
    calculate_expression ("4 / 2".data) = .ok (.rat 2) ∧
    format_number 2 = ['2'] ∧
    calculate_expression ("9 / 2".data) = .ok (.rat (9 / 2)) ∧
    format_number (9 / 2) = ['4', '.', '5'] := by
  refine ⟨?_, by with_unfolding_all rfl, by with_unfolding_all rfl,
    by with_unfolding_all rfl, by with_unfolding_all rfl⟩
  intro x
  constructor
  · rintro ⟨-, hd⟩
    by_contra hne
    rw [format_number, if_neg hne] at hd
    exact hd (dot_mem_floatRepr x)
  · intro hx
    rw [format_number, if_pos hx]
    exact ⟨rfl, dot_notMem_intRender _⟩

/-- C7 witness: the integer value `3`. -/
theorem C7_witness :
    format_number 3 = intRender (pyTrunc 3) ∧ '.' ∉ format_number 3 :=
  (C7_format_number.1 3).mpr (by with_unfolding_all rfl)

/-- C8: no evaluator failure terminates the session.  A line that reaches
the evaluator and fails makes the loop print the `Error:` line and continue
with the rest of the input; the step reports termination only for a quit
command; and exhaustion of input (end-of-file or interrupt) prints the
farewell line. -/
theorem C8_errors_nonfatal :
    (∀ (s : List Char) (rest : List (List Char)) (e : CalcError),
      pyStrip s ≠ [] → asciiLower (pyStrip s) ∉ quitCommands →
      asciiLower (pyStrip s) ≠ "help".data →
      calculate_expression (pyStrip s) = .error e →
      runREPL (s :: rest) = ("Error: ".data ++ errMessage e) :: runREPL rest) ∧
    (∀ (s : List Char) (out : List (List Char)),
      replStep s = (out, false) → asciiLower (pyStrip s) ∈ quitCommands) ∧
    runREPL [] = [('
' :: "Exiting.".data)] :=
  ⟨runREPL_cons_error, fun _ _ h => replStep_stop h, rfl⟩

/-- C8 witness: the malformed line `"banana"` does not end the session. -/
theorem C8_witness :
    runREPL ["banana".data] = ("Error: ".data ++ errMessage .malformed) :: runREPL [] :=
  C8_errors_nonfatal.1 ("banana".data) [] .malformed (by decide) (by decide) (by decide)
    (by decide)

/-- C9: any line whose trimmed text compares case-insensitively equal to
`q`, `quit` or `exit` makes the REPL print the farewell line and stop, and
the behaviour is identical across casings. -/
theorem C9_quit_commands :
    (∀ s : List Char, asciiLower (pyStrip s) ∈ quitCommands →
      replStep s = (["Goodbye.".data], false)) ∧
    replStep ("Q".data) = replStep ("q".data) ∧
    replStep ("QUIT".data) = replStep ("quit".data) ∧
    replStep ("Exit".data) = replStep ("exit".data) ∧
    replStep ("q".data) = (["Goodbye.".data], false) := by
  refine ⟨replStep_quit, ?_, ?_, ?_, ?_⟩ <;> with_unfolding_all rfl

/-- C9 witness: `"Q"`. -/
theorem C9_witness : replStep ("Q".data) = (["Goodbye.".data], false) :=
  C9_quit_commands.1 ("Q".data) (by decide)

/-- C10: the `Unsupported operator` branch is unreachable: every operator
substring the regex captures is a key of `OPS`, and `calculate_expression`
never fails with the `Unsupported operator` message on any input. -/
theorem C10_unsupported_unreachable (s : List Char) :
    isUnsupportedErr (calculate_expression s) = false ∧
    opLookupOk (parseExpr s) = true := by
  refine ⟨calc_unsupported_free s, ?_⟩
  cases hp : parseExpr s with
  | none => rfl
  | some p =>
    obtain ⟨a, t, b⟩ := p
    obtain ⟨-, -, -, -, -, -, o, -, -, -, -, -, -, -, hto, -, -⟩ := parseExpr_decomp hp
    subst hto
    simp [opLookupOk, lookup_tok o]

end SimpleCalc
